import Mathlib

/-!
# Verification of the Slack knowledge-extraction core

A shallow embedding of the keyword-driven message consolidation and
deduplication engine of this repository
(`slack_knowledge_extractor_simple.py` together with the text utilities in
`backend/app/utils/`), with proofs of the specified properties.

Texts are modelled as `List Char` (the repository's inputs are ASCII; the
character-class predicates below mirror the ASCII behaviour of Python's
`str` methods and `re` module, which coincide with CPython on every input
appearing in this development).

External collaborators of the core (the SHA-256 digest from `hashlib`, the
OpenAI HTTP round trip, `json.loads`/`json.dumps`, and the local-timezone
`datetime.fromtimestamp` rendering) are abstracted as fields of an `Env`
record: the core's logic is embedded concretely, the collaborators are
parameters, exactly as the spec draws the boundary.
-/

namespace KB
open List

/-- The four markdown-emphasis characters removed by `normalize_text`. -/
def isFmtChar (c : Char) : Bool :=
  c = '`' || c = '*' || c = '_' || c = '~'

/-- ASCII fragment of Python's `\s` / `str.isspace` character class. -/
def isPySpace (c : Char) : Bool :=
  c = ' ' || c = '\t' || c = '\n' || c = '\r' || c = '\x0b' || c = '\x0c'

/-- First step of `normalize_text`: each of `` ` ``, `*`, `_`, `~` becomes a
space (`text.replace` chain in `normalize_text`). -/
def replFmt (c : Char) : Char :=
  if isFmtChar c then ' ' else c

/-- Python re.sub of `\s+` with a single space: every maximal run of whitespace becomes a
single ASCII space. -/
def collapseSpaces : List Char → List Char
  | [] => []
  | [c] => if isPySpace c then [' '] else [c]
  | c₁ :: c₂ :: rest =>
    if isPySpace c₁ && isPySpace c₂ then collapseSpaces (c₂ :: rest)
    else (if isPySpace c₁ then ' ' else c₁) :: collapseSpaces (c₂ :: rest)

/-- Python `str.strip()` (whitespace on both ends). -/
def pyStrip (l : List Char) : List Char :=
  ((l.dropWhile isPySpace).reverse.dropWhile isPySpace).reverse

/-- Function `normalize_text` from `backend/app/utils/text_processing.py`: replace
formatting characters by spaces, collapse whitespace runs, strip, lowercase. -/
def normalize_text (l : List Char) : List Char :=
  (pyStrip (collapseSpaces (l.map replFmt))).map Char.toLower

/-- Python `str.split()` (no argument): maximal runs of non-whitespace. -/
def pySplitAux : List Char → List Char → List (List Char)
  | [], acc => if acc = [] then [] else [acc.reverse]
  | c :: cs, acc =>
    if isPySpace c then
      if acc = [] then pySplitAux cs [] else acc.reverse :: pySplitAux cs []
    else pySplitAux cs (c :: acc)

def pySplit (l : List Char) : List (List Char) :=
  pySplitAux l []

/-- Python `str.join` with a separator. -/
def joinSep (sep : List Char) : List (List Char) → List Char
  | [] => []
  | [w] => w
  | w :: ws => w ++ sep ++ joinSep sep ws

/-- Function `singularize_keyword` from `backend/app/utils/text_processing.py`. -/
def singularize_keyword (keyword : List Char) : List Char :=
  if pyStrip keyword = [] then keyword
  else
    let k := pyStrip keyword
    if k.length > 3 && "ies".toList.isSuffixOf k then k.dropLast.dropLast.dropLast ++ ['y']
    else if k.length > 2 && "es".toList.isSuffixOf k then k.dropLast.dropLast
    else if k.length > 1 && "s".toList.isSuffixOf k then k.dropLast
    else k

/-- Function `get_preview_text` from `backend/app/utils/text_processing.py`. -/
def get_preview_text (text : List Char) (maxWords : Nat) : List Char :=
  if text = [] then []
  else
    let words := pySplit (pyStrip text)
    if words.length ≥ maxWords then joinSep [' '] (words.take maxWords) ++ "...".toList
    else if words ≠ [] then joinSep [' '] words ++ "...".toList
    else []

/-! ## Keyword matching (`find_matching_keywords`) -/

/-- Word character of the regex `\b` boundary (ASCII fragment of `\w`). -/
def isWordChar (c : Char) : Bool :=
  c.isAlphanum || c = '_'

/-- Whether the character at position `i` of `t` is a word character
(out-of-range positions count as non-word). -/
def isWordAt (t : List Char) (i : Nat) : Bool :=
  match t[i]? with
  | some c => isWordChar c
  | none => false

/-- Regex `\b` holds at position `i` of `t`: exactly one of the two adjacent
positions holds a word character. -/
def boundaryAt (t : List Char) (i : Nat) : Bool :=
  (if i = 0 then false else isWordAt t (i - 1)) != isWordAt t i

/-- The literal `k` occurs in `t` starting at position `i`. -/
def occursAt (k t : List Char) (i : Nat) : Bool :=
  i + k.length ≤ t.length && (t.drop i).take k.length = k

/-- Python `re.search` of the pattern `\b<escaped k>\b` over `t`: some
occurrence of the literal `k` has word boundaries on both sides. -/
def reSearchWordBounded (k t : List Char) : Bool :=
  (List.range (t.length + 1)).any fun i =>
    occursAt k t i && boundaryAt t i && boundaryAt t (i + k.length)

/-- Python substring test `k in t`. -/
def isSubstring (k t : List Char) : Bool :=
  (List.range (t.length + 1)).any fun i => occursAt k t i

/-- Loop body of `find_matching_keywords`: a keyword is kept when its
normalization is nonempty and either (multi-word) a substring of the
normalized text or (single-word) a word-boundary regex match. -/
def keywordHits (normalizedText : List Char) (keyword : List Char) : Bool :=
  let nk := normalize_text keyword
  if nk = [] then false
  else if nk.contains ' ' then isSubstring nk normalizedText
  else reSearchWordBounded nk normalizedText

/-- All keywords of the vocabulary matching `text`, in vocabulary order
(the `matches` list built by `find_matching_keywords`). -/
def allMatches (text : List Char) (keywords : List (List Char)) : List (List Char) :=
  keywords.filter (keywordHits (normalize_text text))

/-- Number of words of a keyword, as `len(keyword.split())`. -/
def wordCount (k : List Char) : Nat :=
  (pySplit k).length

/-- Sort order of `sorted(matches, key=priority)` with
`priority k = (-len(k.split()), -len(k))`: word count descending, then
character length descending.  Python's sort is stable, as is the insertion
sort used below, so the two agree extensionally. -/
def priorityLe (a b : List Char) : Prop :=
  wordCount b < wordCount a ∨ (wordCount a = wordCount b ∧ b.length ≤ a.length)

instance : DecidableRel priorityLe := fun a b => by
  unfold priorityLe; infer_instance

instance : IsTotal (List Char) priorityLe where
  total a b := by unfold priorityLe; omega

instance : IsTrans (List Char) priorityLe where
  trans a b c hab hbc := by
    unfold priorityLe at *; omega

/-- Function `find_matching_keywords` from `slack_knowledge_extractor_simple.py`:
returns `(best_match, all_matches_sorted)` or `none` when nothing matches. -/
def find_matching_keywords (text : List Char) (keywords : List (List Char)) :
    Option (List Char × List (List Char)) :=
  let ms := allMatches text keywords
  if ms = [] then none
  else
    let sortedMatches := List.insertionSort priorityLe ms
    some (sortedMatches.headI, sortedMatches)

/-! ## Data model

`SlackMessage` mirrors the `@dataclass SlackMessage`; `Article` mirrors the
`knowledge_items` record inserted by `create_new_article`; `Store` is the
Supabase `knowledge_items` collection, whose find/insert/update-by-id
semantics the spec assumes (every write is acknowledged with a 2xx status). -/

/-- One raw attachment dict from the Slack payload (`file.get(...)` keys;
`none` models an absent key, `some []` an empty string). -/
structure SlackFile where
  name : Option (List Char)
  url_private : Option (List Char)
  permalink : Option (List Char)
  url : Option (List Char)
  mimetype : Option (List Char)
  size : Nat
deriving DecidableEq, Repr

structure SlackMessage where
  text : List Char
  user : List Char
  channel : List Char
  timestamp : List Char
  thread_ts : Option (List Char) := none
  files : Option (List SlackFile) := none
  sender_name : Option (List Char) := none
  is_thread_reply : Bool := false
  original_thread_ts : Option (List Char) := none
deriving DecidableEq, Repr

/-- One persisted `knowledge_items` row (the fields this subsystem reads or
writes). -/
structure Article where
  id : Nat
  summary : List Char
  topics : List (List Char)
  decisions : List (List Char)
  key_points : List (List Char)
  action_items : List (List Char)
  faqs : List (List Char)
  source : List Char
  date : List Char
  project : List Char
  sender_name : List Char
  raw_text : List Char
deriving DecidableEq, Repr, Inhabited

/-- The knowledge store: rows plus the id the next insert receives. -/
structure Store where
  items : List Article
  nextId : Nat
deriving DecidableEq, Repr

/-- A JSON value as returned by the summarizer (its contract is a flat
object of strings and arrays of strings). -/
inductive JVal where
  | jstr (s : List Char)
  | jlist (l : List (List Char))
deriving DecidableEq, Repr

/-- A parsed JSON object: `json.loads` yields a dict, so keys are unique. -/
def JObj := List (List Char × JVal)

instance : DecidableEq JObj := fun a b => List.hasDecEq a b

/-- Python `key in dict` / `dict.get(key)` lookup. -/
def jGet (o : JObj) (k : List Char) : Option JVal :=
  (o.find? fun p => p.1 = k).map Prod.snd

/-- Python `dict.get(key, [])` coerced to a list of strings.  The summarizer
contract makes these fields JSON arrays; a stray string value is kept as a
one-element list (CPython would store the raw value unchanged — the
difference is unobservable to every property proved here). -/
def jGetList (o : JObj) (k : List Char) : List (List Char) :=
  match jGet o k with
  | some (JVal.jlist l) => l
  | some (JVal.jstr s) => [s]
  | none => []

/-- Python `dict.get(key, default)` for the string-valued `summary` field. -/
def jGetStr (o : JObj) (k : List Char) (dflt : List Char) : List Char :=
  match jGet o k with
  | some (JVal.jstr s) => s
  | some (JVal.jlist l) => joinSep ", ".toList l
  | none => dflt

/-- The record serialized into the `_attachments_json` line. -/
structure AttachRecord where
  name : List Char
  url : List Char
  mimetype : List Char
  size : Nat
deriving DecidableEq, Repr

/-- External collaborators of the core, abstracted exactly where the spec
places the subsystem boundary:

* `sha256hex` — `hashlib.sha256(·.encode('utf-8')).hexdigest()`;
* `openaiApiKey` — the `OPENAI_API_KEY` environment value (`none`: unset);
* `openaiCall` — the HTTP round trip of `call_openai_api` on a prompt:
  `none` models a timeout, transport error, non-200 status or empty
  completion (the function catches them all and returns `None`);
* `jsonLoads` — `json.loads`, `none` on malformed JSON;
* `jsonDumps` — `json.dumps` of the attachment records;
* `dateOfTs` — `format_date_for_storage(datetime.fromtimestamp(float(ts)))`,
  the local-timezone `YYYY-MM-DD` rendering of a timestamp string;
* `timeOfTs` — `datetime.fromtimestamp(float(ts)).strftime('%Y-%m-%d %H:%M')`. -/
structure Env where
  sha256hex : List Char → List Char
  openaiApiKey : Option (List Char)
  openaiCall : List Char → Option (List Char)
  jsonLoads : List Char → Option JObj
  jsonDumps : List AttachRecord → List Char
  dateOfTs : List Char → List Char
  timeOfTs : List Char → List Char

/-- Function `hash_content` from `backend/app/utils/text_processing.py`:
the SHA-256 digest of the normalized text. -/
def hash_content (env : Env) (text : List Char) : List Char :=
  env.sha256hex (normalize_text text)

/-! ## Date rendering (`backend/app/utils/date_utils.py`) -/

def isLeapYear (y : Nat) : Bool :=
  (y % 4 = 0 && y % 100 ≠ 0) || y % 400 = 0

def daysInMonth (y m : Nat) : Nat :=
  if m = 2 then (if isLeapYear y then 29 else 28)
  else if m = 4 || m = 6 || m = 9 || m = 11 then 30
  else 31

def monthAbbrev (m : Nat) : List Char :=
  (["Jan", "Feb", "Mar", "Apr", "May", "Jun", "Jul", "Aug", "Sep", "Oct",
    "Nov", "Dec"].getD (m - 1) "").toList

def natToChars (n : Nat) : List Char :=
  (toString n).toList

/-- Validating parse of `datetime.strptime(s, "%Y-%m-%d")`: exactly four
year digits, one or two month and day digits, ranges checked (leap years
included), `ValueError` modelled as `none`. -/
def parseYmd (s : List Char) : Option (Nat × Nat × Nat) :=
  match s.splitOn '-' with
  | [y, m, d] =>
    if y.length = 4 && y.all Char.isDigit &&
       (m.length = 1 || m.length = 2) && m.all Char.isDigit &&
       (d.length = 1 || d.length = 2) && d.all Char.isDigit then
      let yv := y.foldl (fun n c => n * 10 + (c.toNat - 48)) 0
      let mv := m.foldl (fun n c => n * 10 + (c.toNat - 48)) 0
      let dv := d.foldl (fun n c => n * 10 + (c.toNat - 48)) 0
      if 1 ≤ yv ∧ 1 ≤ mv ∧ mv ≤ 12 ∧ 1 ≤ dv ∧ dv ≤ daysInMonth yv mv then
        some (yv, mv, dv)
      else none
    else none
  | _ => none

/-- Function `format_date_readable` from `backend/app/utils/date_utils.py`:
`"YYYY-MM-DD"` becomes `"<day> <Mon>."`, anything unparsable is returned
unchanged. -/
def format_date_readable (dateStr : List Char) : List Char :=
  match parseYmd dateStr with
  | some (_, m, d) => natToChars d ++ [' '] ++ monthAbbrev m ++ ['.']
  | none => dateStr

/-! ## Article manager (`SlackArticleManager`) -/

/-- Python `a or b` on an optional string: `None` and the empty string are
falsy. -/
def pyOrStr (o : Option (List Char)) (b : List Char) : List Char :=
  match o with
  | some s => if s = [] then b else s
  | none => b

/-- Method `find_existing_article`: restrict to `source = "slack"` rows (the
query parameter) and return the first whose `topics` list contains the
singularized keyword. -/
def find_existing_article (store : Store) (keyword : List Char) : Option Article :=
  (store.items.filter fun a => a.source = "slack".toList).find? fun item =>
    singularize_keyword keyword ∈ item.topics

/-- Method `message_exists_in_article`: the hash marker occurs anywhere in
the article text. -/
def message_exists_in_article (contentHash rawText : List Char) : Bool :=
  isSubstring contentHash rawText

/-- The `file.get('url_private') or file.get('permalink') or file.get('url', '')`
chain. -/
def fileUrl (f : SlackFile) : List Char :=
  let u₁ := f.url_private.getD []
  let u₂ := f.permalink.getD []
  let u₃ := f.url.getD []
  if u₁ ≠ [] then u₁ else if u₂ ≠ [] then u₂ else u₃

/-- The `attachments_json` list built by `format_message_for_storage`
(files whose url chain is empty are dropped). -/
def attachRecordsOf (files : List SlackFile) : List AttachRecord :=
  files.filterMap fun f =>
    let u := fileUrl f
    if u = [] then none
    else some { name := f.name.getD "Unknown".toList, url := u,
                mimetype := f.mimetype.getD [], size := f.size }

/-- Method `format_message_for_storage`: header line, message line, optional
attachment lines, trailing `_msg_hash:` marker, joined with newlines.
The `title` of `create_new_article` is only logged, never stored, and is
not modelled. -/
def format_message_for_storage (env : Env) (msg : SlackMessage)
    (contentHash : List Char) : List Char :=
  let messageType := if msg.is_thread_reply then "Thread Reply".toList else "Message".toList
  let readableDate := format_date_readable (env.dateOfTs msg.timestamp)
  let header := "--- ".toList ++ messageType ++ " from ".toList ++
    pyOrStr msg.sender_name "Unknown".toList ++ " on ".toList ++ readableDate ++
    " ---".toList
  let parts := [header, "Message: ".toList ++ msg.text]
  let parts :=
    match msg.files with
    | none => parts
    | some fs =>
      if fs = [] then parts
      else
        let ar := attachRecordsOf fs
        if ar = [] then parts
        else parts ++
          ["_attachments_json: ".toList ++ env.jsonDumps ar,
           "Attachments: ".toList ++
             joinSep "; ".toList (ar.map fun a => a.name ++ ": ".toList ++ a.url)]
  joinSep "\n".toList (parts ++ ["_msg_hash: ".toList ++ contentHash])

/-- Method `append_to_existing_article`: duplicate check, then an
acknowledged `PATCH` of `raw_text` on the article's id.  Returns the new
store with `(success, action)`. -/
def append_to_existing_article (env : Env) (store : Store) (article : Article)
    (msg : SlackMessage) (contentHash : List Char) : Store × Bool × List Char :=
  let existingText := article.raw_text
  if message_exists_in_article contentHash existingText then
    (store, false, "duplicate".toList)
  else
    let messageEntry := format_message_for_storage env msg contentHash
    let updatedText := existingText ++ "\n\n".toList ++ messageEntry
    let store' := { store with
      items := store.items.map fun a =>
        if a.id = article.id then { a with raw_text := updatedText } else a }
    (store', true, "updated".toList)

/-- Method `create_new_article`: an acknowledged `POST` of the payload built
from the singular topic and the formatted first entry. -/
def create_new_article (env : Env) (store : Store) (topicSingular : List Char)
    (msg : SlackMessage) (contentHash : List Char) (summary : List Char)
    (decisions keyPoints actionItems : List (List Char)) : Store × Bool × List Char :=
  let keywordWords := pySplit topicSingular
  if keywordWords = [] then (store, false, "error".toList)
  else
    let messageEntry := format_message_for_storage env msg contentHash
    let article : Article :=
      { id := store.nextId
        summary := summary
        topics := [topicSingular]
        decisions := decisions
        key_points := keyPoints
        action_items := actionItems
        faqs := []
        source := "slack".toList
        date := env.dateOfTs msg.timestamp
        project := msg.channel
        sender_name := pyOrStr msg.sender_name "Unknown".toList
        raw_text := messageEntry }
    ({ items := store.items ++ [article], nextId := store.nextId + 1 }, true,
     "inserted".toList)

/-! ## Summarizer adapter (`summarize_thread_with_openai`) -/

/-- Fence stripping of `parse_json_response`, with explicit fuel so the
recursion is structural (the fuel never runs out at `s.length`). -/
def reSubRemoveAux (pat : List Char) : Nat → List Char → List Char
  | _, [] => []
  | 0, s => s
  | fuel + 1, c :: cs =>
    if pat ≠ [] && pat.isPrefixOf (c :: cs) then
      reSubRemoveAux pat fuel (((c :: cs).drop pat.length).dropWhile isPySpace)
    else c :: reSubRemoveAux pat fuel cs

/-- Python `re.sub(pat + r"\s*", '', s)` for a literal `pat`. -/
def reSubRemove (pat s : List Char) : List Char :=
  reSubRemoveAux pat s.length s

/-- Function `parse_json_response` from `backend/app/utils/ai_summarization.py`:
strip markdown code fences, strip whitespace, hand to `json.loads`. -/
def parse_json_response (env : Env) (content : List Char) : Option JObj :=
  env.jsonLoads (pyStrip (reSubRemove "```".toList (reSubRemove "```json".toList content)))

/-- The transcript built by `summarize_thread_with_openai`. -/
def buildConversationText (env : Env) (msgs : List SlackMessage)
    (keyword : List Char) : List Char :=
  "Slack Conversation Thread\n".toList ++
  "Topic Keyword: ".toList ++ keyword ++ "\n".toList ++
  (List.replicate 50 '=') ++ "\n\n".toList ++
  (msgs.map fun msg =>
    let sender := pyOrStr msg.sender_name ("User ".toList ++ msg.user)
    let msgType := if msg.is_thread_reply then "Thread Reply".toList else "Message".toList
    "[".toList ++ msgType ++ "] ".toList ++ sender ++ " (".toList ++
      env.timeOfTs msg.timestamp ++ "):\n".toList ++ msg.text ++ "\n\n".toList).flatten

/-- The instruction prompt of `summarize_thread_with_openai`. -/
def buildPrompt (keyword convo : List Char) : List Char :=
  "You are an AI assistant analyzing a Slack conversation thread about \"".toList ++
  keyword ++
  "\".\n\nAnalyze the following conversation and provide a structured summary in JSON format with these exact keys:\n- \"summary\": A concise 2-3 sentence summary of the main discussion\n- \"key_points\": An array of 3-7 key points mentioned in the conversation\n- \"decisions\": An array of any decisions made (can be empty if none)\n- \"action_items\": An array of action items with assignees if mentioned (format: \"Action: [description] - Assigned to: [person]\" or just \"Action: [description]\" if no assignee)\n\nBe specific and extract actual information from the conversation. If a section has no relevant content, use an empty array.\n\nConversation:\n".toList ++
  convo ++
  "\n\nRespond ONLY with valid JSON, no additional text or markdown formatting.".toList

def requiredKeys : List (List Char) :=
  ["summary".toList, "key_points".toList, "decisions".toList, "action_items".toList]

/-- Function `summarize_thread_with_openai`: `None` without a credential;
otherwise one external call, falsy-content check, JSON parse, and the
four-required-keys validation; every failure yields `None` (the `try` block
turns exceptions into `None` as well). -/
def summarize_thread_with_openai (env : Env) (msgs : List SlackMessage)
    (keyword : List Char) : Option JObj :=
  match env.openaiApiKey with
  | none => none
  | some _ =>
    match env.openaiCall (buildPrompt keyword (buildConversationText env msgs keyword)) with
    | none => none
    | some content =>
      if content = [] then none
      else
        match parse_json_response env content with
        | none => none
        | some summaryData =>
          if requiredKeys.all fun k => (jGet summaryData k).isSome then
            some summaryData
          else none

/-- Function `format_summary_for_storage` from
`backend/app/utils/ai_summarization.py` (inline fallback is identical). -/
def format_summary_for_storage (summaryData : JObj) : List Char :=
  let numbered (l : List (List Char)) : List (List Char) :=
    l.enum.map fun p => natToChars (p.1 + 1) ++ ". ".toList ++ p.2
  let sectionOf (heading : List Char) (l : List (List Char)) : List (List Char) :=
    if l = [] then [] else [heading] ++ numbered l ++ [[]]
  let parts :=
    ["## Summary".toList, jGetStr summaryData "summary".toList "No summary available.".toList, []] ++
    sectionOf "## Key Points".toList (jGetList summaryData "key_points".toList) ++
    sectionOf "## Decisions".toList (jGetList summaryData "decisions".toList) ++
    sectionOf "## Action Items".toList (jGetList summaryData "action_items".toList)
  joinSep "\n".toList parts

/-- Method `update_article_summary_with_ai`: regenerate the summary for an
article and `PATCH` the summary fields (never `raw_text`); `False` when the
summarizer yields nothing. -/
def update_article_summary_with_ai (env : Env) (store : Store) (article : Article)
    (threadMessages : List SlackMessage) (keyword : List Char) : Store × Bool :=
  match summarize_thread_with_openai env threadMessages keyword with
  | none => (store, false)
  | some summaryData =>
    let formatted := format_summary_for_storage summaryData
    let ds := jGetList summaryData "decisions".toList
    let kp := jGetList summaryData "key_points".toList
    let ai := jGetList summaryData "action_items".toList
    let store' := { store with
      items := store.items.map fun a =>
        if a.id = article.id then
          { a with summary := formatted
                   decisions := if ds ≠ [] then ds else a.decisions
                   key_points := if kp ≠ [] then kp else a.key_points
                   action_items := if ai ≠ [] then ai else a.action_items }
        else a }
    (store', true)

/-! ## Extractor (`SlackKnowledgeExtractor`) -/

/-- Method `_validate_keyword`: strip, singularize, fall back to the
stripped original when singularization is empty, reject empty results. -/
def validate_keyword (keyword : List Char) : Option (List Char) :=
  if pyStrip keyword = [] then none
  else
    let kw := pyStrip keyword
    let t₁ := singularize_keyword kw
    let t₂ := if pyStrip t₁ = [] then pyStrip kw else t₁
    if pyStrip t₂ = [] then none else some (pyStrip t₂)

/-- Method `_process_matched_message`: validate the keyword, hash the text,
then append to the existing article (refreshing its summary when thread
context and a credential exist) or create a new one (with an AI summary
when available, else the plain preview). -/
def process_matched_message (env : Env) (store : Store) (keyword : List Char)
    (msg : SlackMessage) (threadMessages : List SlackMessage) :
    Store × Bool × List Char :=
  match validate_keyword keyword with
  | none => (store, false, "error".toList)
  | some topicSingular =>
    let contentHash := hash_content env msg.text
    match find_existing_article store keyword with
    | some existingArticle =>
      let r := append_to_existing_article env store existingArticle msg contentHash
      let store' :=
        if r.2.1 && !threadMessages.isEmpty && env.openaiApiKey.isSome then
          (update_article_summary_with_ai env r.1 existingArticle threadMessages keyword).1
        else r.1
      (store', r.2.1, r.2.2)
    | none =>
      let preview := get_preview_text msg.text 3
      let summary :=
        if preview = [] then "Slack messages about ".toList ++ topicSingular else preview
      if !threadMessages.isEmpty && env.openaiApiKey.isSome then
        match summarize_thread_with_openai env threadMessages topicSingular with
        | some summaryData =>
          create_new_article env store topicSingular msg contentHash
            (format_summary_for_storage summaryData)
            (jGetList summaryData "decisions".toList)
            (jGetList summaryData "key_points".toList)
            (jGetList summaryData "action_items".toList)
        | none => create_new_article env store topicSingular msg contentHash summary [] [] []
      else create_new_article env store topicSingular msg contentHash summary [] [] []

/-! ## Thread grouping (`_group_messages_by_thread`) -/

/-- The `thread_id` of a message: `msg.original_thread_ts or msg.timestamp`. -/
def threadKeyOf (msg : SlackMessage) : List Char :=
  pyOrStr msg.original_thread_ts msg.timestamp

/-- Insert one message into the dict of groups (Python dicts preserve key
insertion order; a new key is appended at the end). -/
def addToGroups (gs : List (List Char × List SlackMessage)) (k : List Char)
    (m : SlackMessage) : List (List Char × List SlackMessage) :=
  match gs with
  | [] => [(k, [m])]
  | (k', l) :: rest =>
    if k' = k then (k', l ++ [m]) :: rest else (k', l) :: addToGroups rest k m

def groupInsertionOrder (messages : List SlackMessage) :
    List (List Char × List SlackMessage) :=
  messages.foldl (fun gs m => addToGroups gs (threadKeyOf m) m) []

def digitsToNat (l : List Char) : Nat :=
  l.foldl (fun n c => n * 10 + (c.toNat - 48)) 0

/-- Value of `float(s)` for the nonnegative decimal literals Slack produces
as timestamps, computed exactly in `ℚ` (Slack timestamps have 16
significant digits and are exactly representable as doubles, so exact
rational comparison agrees with float comparison on them). -/
def tsVal (s : List Char) : ℚ :=
  let ip := s.takeWhile Char.isDigit
  match s.drop ip.length with
  | [] => (digitsToNat ip : ℚ)
  | '.' :: fp =>
    if fp.all Char.isDigit then
      (digitsToNat ip : ℚ) + (digitsToNat fp : ℚ) / ((10 : ℚ) ^ fp.length)
    else 0
  | _ => 0

/-- Sort key of `thread_groups[thread_id].sort(key=lambda m: float(m.timestamp))`. -/
def tsLe (a b : SlackMessage) : Prop :=
  tsVal a.timestamp ≤ tsVal b.timestamp

instance : DecidableRel tsLe := fun a b => by
  unfold tsLe; infer_instance

instance : IsTotal SlackMessage tsLe where
  total a b := le_total (tsVal a.timestamp) (tsVal b.timestamp)

instance : IsTrans SlackMessage tsLe where
  trans _ _ _ hab hbc := le_trans hab hbc

/-- Method `_group_messages_by_thread`: bucket by `thread_id`, then sort
each bucket ascending by `float(timestamp)` (Python's stable sort, modelled
by the stable insertion sort). -/
def group_messages_by_thread (messages : List SlackMessage) :
    List (List Char × List SlackMessage) :=
  (groupInsertionOrder messages).map fun p => (p.1, List.insertionSort tsLe p.2)

/-! ## Run loop (`run_extraction_workflow`, per-message section) -/

structure RunStats where
  scanned : Nat
  inserted : Nat
  updated : Nat
  summarized : Nat
deriving DecidableEq, Repr

def lookupGroup (gs : List (List Char × List SlackMessage)) (k : List Char) :
    Option (List SlackMessage) :=
  (gs.find? fun p => p.1 = k).map Prod.snd

/-- One iteration of the per-message loop of `run_extraction_workflow`:
match, skip already-processed `(thread_id, best_match)` pairs, process, and
accumulate counters. -/
def runLoopStep (env : Env) (threadGroups : List (List Char × List SlackMessage))
    (keywords : List (List Char)) (st : Store × RunStats × List (List Char))
    (msg : SlackMessage) : Store × RunStats × List (List Char) :=
  let store := st.1
  let stats := st.2.1
  let processed := st.2.2
  let stats := { stats with scanned := stats.scanned + 1 }
  match find_matching_keywords msg.text keywords with
  | none => (store, stats, processed)
  | some (bestMatch, _) =>
    if pyStrip bestMatch = [] then (store, stats, processed)
    else
      let threadId := pyOrStr msg.original_thread_ts msg.timestamp
      let threadMessages := (lookupGroup threadGroups threadId).getD [msg]
      let threadKey := threadId ++ ":".toList ++ bestMatch
      if threadKey ∈ processed then (store, stats, processed)
      else
        let processed := processed ++ [threadKey]
        let r := process_matched_message env store bestMatch msg threadMessages
        let stats :=
          if r.2.1 then
            if r.2.2 = "inserted".toList then
              { stats with inserted := stats.inserted + 1,
                           summarized := stats.summarized +
                             (if !threadMessages.isEmpty && env.openaiApiKey.isSome
                              then 1 else 0) }
            else if r.2.2 = "updated".toList then
              { stats with updated := stats.updated + 1 }
            else stats
          else stats
        (r.1, stats, processed)

/-- The message-processing core of `run_extraction_workflow`, from the point
where the vocabulary and the fetched messages are in hand: group into
threads, then fold the per-message loop over the fetch order. -/
def runExtractionCore (env : Env) (keywords : List (List Char))
    (messages : List SlackMessage) (store : Store) : Store × RunStats :=
  let threadGroups := group_messages_by_thread messages
  let r := messages.foldl (runLoopStep env threadGroups keywords)
    (store, ⟨0, 0, 0, 0⟩, [])
  (r.1, r.2.1)

/-! ## Auxiliary predicate and concrete test fixtures -/

/-- No two adjacent whitespace characters (the shape `re.sub` guarantees). -/
def NoAdjSp (a b : Char) : Prop := ¬(isPySpace a = true ∧ isPySpace b = true)

/-- A concrete environment for closed evaluations: no OpenAI credential, a
failing summarizer transport, an injective toy digest, a constant date. -/
def cEnv : Env :=
  { sha256hex := fun s => 'H' :: s
    openaiApiKey := none
    openaiCall := fun _ => none
    jsonLoads := fun _ => none
    jsonDumps := fun _ => []
    dateOfTs := fun _ => "1970-01-01".toList
    timeOfTs := fun _ => [] }

/-- Same environment with a timestamp-dependent date rendering, so entries
of messages with different timestamps have different header lines. -/
def cEnvTs : Env :=
  { cEnv with dateOfTs := fun ts => ts }

/-- The end-to-end scenario message: "Posting the release notes for v2" at
timestamp 100. -/
def cMsgRelease : SlackMessage :=
  { text := "Posting the release notes for v2".toList
    user := "U1".toList
    channel := "general".toList
    timestamp := "100".toList }

/-- Two distinct messages with formatting-equivalent text (a doubled space),
hence equal content hashes. -/
def cMsgCatA : SlackMessage :=
  { text := "cat go".toList, user := "U1".toList, channel := "ch".toList,
    timestamp := "1".toList, sender_name := some "Ann".toList }

def cMsgCatB : SlackMessage :=
  { text := "cat  go".toList, user := "U2".toList, channel := "ch".toList,
    timestamp := "2".toList, sender_name := some "Bob".toList }

/-- A second-message fixture with genuinely different content. -/
def cMsgCatC : SlackMessage :=
  { text := "cat run".toList, user := "U2".toList, channel := "ch".toList,
    timestamp := "2".toList, sender_name := some "Bob".toList }

/-- Thread-grouping fixtures: a root at ts 1 and two replies at ts 2, 3. -/
def cThreadRoot : SlackMessage :=
  { text := "root".toList, user := "u".toList, channel := "c".toList,
    timestamp := "1".toList }

def cThreadReply2 : SlackMessage :=
  { text := "r2".toList, user := "u".toList, channel := "c".toList,
    timestamp := "2".toList, is_thread_reply := true,
    original_thread_ts := some "1".toList }

def cThreadReply3 : SlackMessage :=
  { text := "r3".toList, user := "u".toList, channel := "c".toList,
    timestamp := "3".toList, is_thread_reply := true,
    original_thread_ts := some "1".toList }

/-- An article fixture whose `raw_text` already carries a hash marker. -/
def cArticleCat : Article :=
  { id := 7
    summary := "cat go...".toList
    topics := ["cat".toList]
    decisions := []
    key_points := []
    action_items := []
    faqs := []
    source := "slack".toList
    date := "1970-01-01".toList
    project := "ch".toList
    sender_name := "Ann".toList
    raw_text := "--- Message from Ann on 1 Jan. ---\nMessage: cat go\n_msg_hash: Hcat go".toList }

/-! ## Character-level and list-level helper lemmas -/


theorem char_toNat_inj {a b : Char} (h : a.toNat = b.toNat) : a = b := by
  have := Char.ofNat_toNat a
  rw [h, Char.ofNat_toNat] at this; exact this.symm

theorem ne_of_toNat_ne {c d : Char} (h : c.toNat ≠ d.toNat) : c ≠ d :=
  fun he => h (he ▸ rfl)

theorem ofNat_toNat_lowerRange {m : Nat} (h1 : 97 ≤ m) (h2 : m ≤ 122) :
    (Char.ofNat m).toNat = m := by
  interval_cases m <;> decide

theorem toLower_cases (c : Char) :
    (65 ≤ c.toNat ∧ c.toNat ≤ 90 ∧ c.toLower.toNat = c.toNat + 32) ∨ c.toLower = c := by
  unfold Char.toLower
  by_cases h : c.toNat ≥ 65 ∧ c.toNat ≤ 90
  · exact Or.inl ⟨h.1, h.2, by
      simp only [h, and_self, if_true]
      exact ofNat_toNat_lowerRange (by omega) (by omega)⟩
  · exact Or.inr (by simp [h])

theorem isPySpace_of_range_false {c : Char} (h1 : 14 ≤ c.toNat) (h2 : c.toNat ≠ 32) :
    isPySpace c = false := by
  have e1 : (' ').toNat = 32 := rfl
  have e2 : ('\t').toNat = 9 := rfl
  have e3 : ('\n').toNat = 10 := rfl
  have e4 : ('\r').toNat = 13 := rfl
  have e5 : ('\x0b').toNat = 11 := rfl
  have e6 : ('\x0c').toNat = 12 := rfl
  simp only [isPySpace, Bool.or_eq_false_iff, decide_eq_false_iff_not]
  refine ⟨⟨⟨⟨⟨?_, ?_⟩, ?_⟩, ?_⟩, ?_⟩, ?_⟩ <;> exact ne_of_toNat_ne (by omega)

theorem isPySpace_toLower (c : Char) : isPySpace c.toLower = isPySpace c := by
  rcases toLower_cases c with ⟨h1, h2, h3⟩ | h
  · rw [isPySpace_of_range_false (by omega) (by omega),
      isPySpace_of_range_false (c := c) (by omega) (by omega)]
  · rw [h]

theorem isFmtChar_of_range_false {c : Char} (h42 : c.toNat ≠ 42) (h95 : c.toNat ≠ 95)
    (h96 : c.toNat ≠ 96) (h126 : c.toNat ≠ 126) : isFmtChar c = false := by
  have e1 : ('`').toNat = 96 := rfl
  have e2 : ('*').toNat = 42 := rfl
  have e3 : ('_').toNat = 95 := rfl
  have e4 : ('~').toNat = 126 := rfl
  simp only [isFmtChar, Bool.or_eq_false_iff, decide_eq_false_iff_not]
  refine ⟨⟨⟨?_, ?_⟩, ?_⟩, ?_⟩ <;> exact ne_of_toNat_ne (by omega)

theorem isFmtChar_toLower (c : Char) : isFmtChar c.toLower = isFmtChar c := by
  rcases toLower_cases c with ⟨h1, h2, h3⟩ | h
  · rw [isFmtChar_of_range_false (by omega) (by omega) (by omega) (by omega),
      isFmtChar_of_range_false (c := c) (by omega) (by omega) (by omega) (by omega)]
  · rw [h]

theorem toLower_toLower (c : Char) : c.toLower.toLower = c.toLower := by
  rcases toLower_cases c with ⟨h1, h2, h3⟩ | h
  · rcases toLower_cases c.toLower with ⟨g1, g2, g3⟩ | g
    · exact absurd g2 (by omega)
    · exact g
  · rw [h]; exact h


theorem mem_collapseSpaces {c : Char} : ∀ {l : List Char},
    c ∈ collapseSpaces l → c ∈ l ∨ c = ' '
  | [], h => by simp [collapseSpaces] at h
  | [d], h => by
    by_cases hd : isPySpace d
    · simp [collapseSpaces, hd] at h; exact Or.inr h
    · simp [collapseSpaces, hd] at h; exact Or.inl (by simp [h])
  | d₁ :: d₂ :: rest, h => by
    by_cases h12 : isPySpace d₁ && isPySpace d₂
    · rw [collapseSpaces, if_pos h12] at h
      rcases mem_collapseSpaces h with h' | h'
      · exact Or.inl (List.mem_cons_of_mem _ h')
      · exact Or.inr h'
    · rw [collapseSpaces, if_neg h12] at h
      rcases List.mem_cons.mp h with h' | h'
      · by_cases hd : isPySpace d₁
        · simp [hd] at h'; exact Or.inr h'
        · simp [hd] at h'; exact Or.inl (by simp [h'])
      · rcases mem_collapseSpaces h' with h'' | h''
        · exact Or.inl (List.mem_cons_of_mem _ h'')
        · exact Or.inr h''

theorem space_mem_collapseSpaces : ∀ {l : List Char} {c : Char},
    c ∈ collapseSpaces l → isPySpace c = true → c = ' '
  | [], c, h, _ => by simp [collapseSpaces] at h
  | [d], c, h, hs => by
    by_cases hd : isPySpace d
    · simp [collapseSpaces, hd] at h; exact h
    · simp [collapseSpaces, hd] at h; rw [h] at hs; exact absurd hs (by simp [hd])
  | d₁ :: d₂ :: rest, c, h, hs => by
    by_cases h12 : isPySpace d₁ && isPySpace d₂
    · rw [collapseSpaces, if_pos h12] at h
      exact space_mem_collapseSpaces h hs
    · rw [collapseSpaces, if_neg h12] at h
      rcases List.mem_cons.mp h with h' | h'
      · by_cases hd : isPySpace d₁
        · simpa [hd] using h'
        · rw [h'] at hs; simp [hd] at hs
      · exact space_mem_collapseSpaces h' hs

theorem head_collapseSpaces_nonspace {c : Char} (cs : List Char)
    (hc : isPySpace c = false) :
    ∃ tl, collapseSpaces (c :: cs) = c :: tl := by
  cases cs with
  | nil => exact ⟨[], by simp [collapseSpaces, hc]⟩
  | cons d rest =>
    refine ⟨collapseSpaces (d :: rest), ?_⟩
    rw [collapseSpaces, if_neg (by simp [hc]), if_neg (by simp [hc])]

theorem chain'_collapseSpaces : ∀ (l : List Char),
    List.Chain' NoAdjSp (collapseSpaces l)
  | [] => by simp [collapseSpaces]
  | [d] => by by_cases hd : isPySpace d <;> simp [collapseSpaces, hd]
  | d₁ :: d₂ :: rest => by
    by_cases h12 : isPySpace d₁ && isPySpace d₂
    · rw [collapseSpaces, if_pos h12]
      exact chain'_collapseSpaces (d₂ :: rest)
    · rw [collapseSpaces, if_neg h12]
      apply List.chain'_cons'.mpr
      refine ⟨?_, chain'_collapseSpaces (d₂ :: rest)⟩
      intro b hb
      refine fun hcon => ?_
      by_cases hd : isPySpace d₁
      · have hd₂ : isPySpace d₂ = false := by
          cases hp : isPySpace d₂
          · rfl
          · exact absurd (by rw [hd, hp]; rfl) h12
        obtain ⟨tl, htl⟩ := head_collapseSpaces_nonspace rest hd₂
        rw [htl] at hb
        simp only [List.head?_cons, Option.mem_def, Option.some.injEq] at hb
        rw [← hb, hd₂] at hcon
        exact absurd hcon.2 (by simp)
      · rw [if_neg hd] at hcon
        exact hd hcon.1

theorem collapseSpaces_fixed : ∀ {l : List Char},
    (∀ c ∈ l, isPySpace c = true → c = ' ') → List.Chain' NoAdjSp l →
    collapseSpaces l = l
  | [], _, _ => rfl
  | [d], hsp, _ => by
    by_cases hd : isPySpace d
    · rw [collapseSpaces, if_pos hd, hsp d (by simp) hd]
    · rw [collapseSpaces, if_neg hd]
  | d₁ :: d₂ :: rest, hsp, hch => by
    have h12 : ¬(isPySpace d₁ && isPySpace d₂) = true := by
      intro hcon
      exact (List.chain'_cons.mp hch).1
        ⟨(Bool.and_eq_true _ _).mp hcon |>.1, (Bool.and_eq_true _ _).mp hcon |>.2⟩
    rw [collapseSpaces, if_neg h12]
    have htail : collapseSpaces (d₂ :: rest) = d₂ :: rest :=
      collapseSpaces_fixed (fun c hc => hsp c (List.mem_cons_of_mem _ hc))
        (List.chain'_cons.mp hch).2
    rw [htail]
    by_cases hd : isPySpace d₁
    · rw [if_pos hd, hsp d₁ (by simp) hd]
    · rw [if_neg hd]

theorem dropWhile_head_not {p : Char → Bool} : ∀ {x : List Char} {c : Char},
    (x.dropWhile p).head? = some c → p c = false
  | [], c, h => by simp [List.dropWhile] at h
  | a :: t, c, h => by
    by_cases ha : p a
    · rw [List.dropWhile_cons, if_pos ha] at h
      exact dropWhile_head_not h
    · rw [List.dropWhile_cons, if_neg ha] at h
      simp at h
      rw [← h]
      exact Bool.not_eq_true _ ▸ ha

theorem suffix_reverse_prefix {s t : List Char} (h : s <:+ t) :
    s.reverse <+: t.reverse := by
  obtain ⟨pre, hpre⟩ := h
  exact ⟨pre.reverse, by rw [← List.reverse_append, hpre]⟩

theorem pyStrip_infix_self (l : List Char) : pyStrip l <:+: l := by
  have h₁ : l.dropWhile isPySpace <:+ l := List.dropWhile_suffix _
  have h₂ : (l.dropWhile isPySpace).reverse.dropWhile isPySpace <:+
      (l.dropWhile isPySpace).reverse := List.dropWhile_suffix _
  have h₃ := suffix_reverse_prefix h₂
  rw [List.reverse_reverse] at h₃
  exact h₃.isInfix.trans h₁.isInfix

theorem mem_pyStrip {c : Char} {l : List Char} (h : c ∈ pyStrip l) : c ∈ l :=
  (pyStrip_infix_self l).subset h

theorem suffix_getLast? {s t : List Char} (h : s <:+ t) (hne : s ≠ []) :
    s.getLast? = t.getLast? := by
  obtain ⟨pre, hpre⟩ := h
  rw [← hpre, List.getLast?_append_of_ne_nil _ hne]

theorem pyStrip_head_nonspace {c : Char} {l : List Char}
    (h : (pyStrip l).head? = some c) : isPySpace c = false := by
  unfold pyStrip at h
  rw [List.head?_reverse] at h
  have hz : (l.dropWhile isPySpace).reverse.dropWhile isPySpace ≠ [] := by
    intro hcon
    rw [hcon] at h
    simp at h
  rw [suffix_getLast? (List.dropWhile_suffix _) hz, List.getLast?_reverse] at h
  exact dropWhile_head_not h

theorem pyStrip_getLast_nonspace {c : Char} {l : List Char}
    (h : (pyStrip l).getLast? = some c) : isPySpace c = false := by
  unfold pyStrip at h
  rw [List.getLast?_reverse] at h
  exact dropWhile_head_not h

theorem dropWhile_eq_self_of_head {p : Char → Bool} {x : List Char}
    (h : ∀ c, x.head? = some c → p c = false) : x.dropWhile p = x := by
  cases x with
  | nil => rfl
  | cons a t => rw [List.dropWhile_cons, if_neg (by rw [h a rfl]; simp)]

theorem pyStrip_fixed {l : List Char}
    (h₁ : ∀ c, l.head? = some c → isPySpace c = false)
    (h₂ : ∀ c, l.getLast? = some c → isPySpace c = false) : pyStrip l = l := by
  unfold pyStrip
  rw [dropWhile_eq_self_of_head h₁]
  rw [dropWhile_eq_self_of_head (fun c hc => h₂ c (by rwa [List.head?_reverse] at hc))]
  exact List.reverse_reverse l

theorem isFmtChar_replFmt (e : Char) : isFmtChar (replFmt e) = false := by
  unfold replFmt
  by_cases h : isFmtChar e
  · rw [if_pos h]; decide
  · rw [if_neg h]; exact Bool.not_eq_true _ ▸ h

theorem replFmt_eq_self {c : Char} (h : isFmtChar c = false) : replFmt c = c := by
  unfold replFmt; rw [h]; simp

theorem normalize_fmt_free {l : List Char} {c : Char} (hc : c ∈ normalize_text l) :
    isFmtChar c = false := by
  unfold normalize_text at hc
  obtain ⟨d, hd, rfl⟩ := List.mem_map.mp hc
  rw [isFmtChar_toLower]
  rcases mem_collapseSpaces (mem_pyStrip hd) with h' | h'
  · obtain ⟨e, _, rfl⟩ := List.mem_map.mp h'
    exact isFmtChar_replFmt e
  · rw [h']; decide

theorem normalize_space_blank {l : List Char} {c : Char} (hc : c ∈ normalize_text l)
    (hs : isPySpace c = true) : c = ' ' := by
  unfold normalize_text at hc
  obtain ⟨d, hd, rfl⟩ := List.mem_map.mp hc
  rw [isPySpace_toLower] at hs
  rw [space_mem_collapseSpaces (mem_pyStrip hd) hs]
  decide

theorem normalize_chain (l : List Char) :
    List.Chain' NoAdjSp (normalize_text l) := by
  unfold normalize_text
  apply (List.chain'_map _).mpr
  apply List.Chain'.imp (R := NoAdjSp)
  · intro a b hab
    unfold NoAdjSp at *
    rw [isPySpace_toLower, isPySpace_toLower]
    exact hab
  · exact List.Chain'.infix (chain'_collapseSpaces _) (pyStrip_infix_self _)

theorem normalize_head_nonspace {l : List Char} {c : Char}
    (h : (normalize_text l).head? = some c) : isPySpace c = false := by
  unfold normalize_text at h
  rw [List.head?_map] at h
  cases hu : (pyStrip (collapseSpaces (l.map replFmt))).head? with
  | none => rw [hu] at h; simp at h
  | some d =>
    rw [hu] at h
    simp at h
    rw [← h, isPySpace_toLower]
    exact pyStrip_head_nonspace hu

theorem normalize_getLast_nonspace {l : List Char} {c : Char}
    (h : (normalize_text l).getLast? = some c) : isPySpace c = false := by
  unfold normalize_text at h
  rw [List.getLast?_map] at h
  cases hu : (pyStrip (collapseSpaces (l.map replFmt))).getLast? with
  | none => rw [hu] at h; simp at h
  | some d =>
    rw [hu] at h
    simp at h
    rw [← h, isPySpace_toLower]
    exact pyStrip_getLast_nonspace hu

theorem normalize_map_toLower (l : List Char) :
    (normalize_text l).map Char.toLower = normalize_text l := by
  unfold normalize_text
  rw [List.map_map]
  exact List.map_congr_left fun a _ => toLower_toLower a

/-- C9: `normalize_text` is idempotent — a text already in canonical form
is left unchanged by a second normalization. -/
theorem normalize_text_idem (l : List Char) :
    normalize_text (normalize_text l) = normalize_text l := by
  have hrepl : (normalize_text l).map replFmt = normalize_text l := by
    rw [List.map_congr_left fun a ha => replFmt_eq_self (normalize_fmt_free ha)]
    exact List.map_id _
  have hcoll : collapseSpaces (normalize_text l) = normalize_text l :=
    collapseSpaces_fixed (fun c hc => normalize_space_blank hc) (normalize_chain l)
  have hstrip : pyStrip (normalize_text l) = normalize_text l :=
    pyStrip_fixed (fun c hc => normalize_head_nonspace hc)
      (fun c hc => normalize_getLast_nonspace hc)
  calc normalize_text (normalize_text l)
      = (pyStrip (collapseSpaces ((normalize_text l).map replFmt))).map Char.toLower := rfl
    _ = normalize_text l := by rw [hrepl, hcoll, hstrip, normalize_map_toLower]


/-! ## Claim theorems: hashing and matching -/

theorem headI_mem_of_ne_nil {α : Type} [Inhabited α] {l : List α} (h : l ≠ []) :
    l.headI ∈ l := by
  cases l with
  | nil => exact absurd rfl h
  | cons a t => simp [List.headI]

/-- C5: `content_hash` is the digest of the normalized text, is a function
of the normalized text alone (so deterministic and insensitive to
formatting-only differences), and identifies the spec's example pairs:
emphasis characters, whitespace runs, surrounding whitespace and letter
case do not change the hash. -/
theorem content_hash_normalization_invariant (env : Env) (s t : List Char) :
    hash_content env s = env.sha256hex (normalize_text s) ∧
    (normalize_text s = normalize_text t → hash_content env s = hash_content env t) ∧
    hash_content env "Deploy **now**".toList = hash_content env "deploy now".toList ∧
    hash_content env "a\tb".toList = hash_content env "a b".toList ∧
    hash_content env "  x  ".toList = hash_content env "x".toList ∧
    hash_content env "AbC".toList = hash_content env "abc".toList := by
  refine ⟨rfl, fun h => congrArg env.sha256hex h, ?_, ?_, ?_, ?_⟩ <;>
    exact congrArg env.sha256hex (by decide)

theorem content_hash_normalization_invariant_witness :
    hash_content cEnv "Deploy **now**".toList = hash_content cEnv "deploy now".toList :=
  (content_hash_normalization_invariant cEnv "Deploy **now**".toList
    "deploy now".toList).2.1 (by decide)

/-- C3: with at least one match, `find_matching_keywords` returns the match
list sorted by word count descending then character length descending, with
the head of that order as best match; the best match is priority-maximal
among all matches.  On the spec's example the best match is "mia chatbot". -/
theorem find_best_match_most_specific (text : List Char)
    (keywords : List (List Char)) (h : allMatches text keywords ≠ []) :
    (∃ best sortedM,
      find_matching_keywords text keywords = some (best, sortedM) ∧
      sortedM.Perm (allMatches text keywords) ∧
      List.Sorted priorityLe sortedM ∧
      sortedM.headI = best ∧
      best ∈ allMatches text keywords ∧
      ∀ k ∈ allMatches text keywords, priorityLe best k) ∧
    find_matching_keywords "the mia chatbot dashboard is slow".toList
      ["dashboard".toList, "mia chatbot".toList] =
      some ("mia chatbot".toList, ["mia chatbot".toList, "dashboard".toList]) := by
  constructor
  · have hperm := List.perm_insertionSort priorityLe (allMatches text keywords)
    have hsne : List.insertionSort priorityLe (allMatches text keywords) ≠ [] := by
      intro hcon
      rw [hcon] at hperm
      exact h hperm.symm.eq_nil
    have hsorted := List.sorted_insertionSort priorityLe (allMatches text keywords)
    refine ⟨_, _, ?_, hperm, hsorted, rfl, ?_, ?_⟩
    · unfold find_matching_keywords
      rw [if_neg h]
    · exact hperm.mem_iff.mp (headI_mem_of_ne_nil hsne)
    · intro k hk
      have hk' : k ∈ List.insertionSort priorityLe (allMatches text keywords) :=
        hperm.mem_iff.mpr hk
      cases hs : List.insertionSort priorityLe (allMatches text keywords) with
      | nil => exact absurd hs hsne
      | cons b rest =>
        rw [hs] at hk' hsorted
        simp only [List.headI]
        rcases List.mem_cons.mp hk' with rfl | hk''
        · exact Or.inr ⟨rfl, le_refl _⟩
        · exact List.rel_of_sorted_cons hsorted k hk''
  · decide

theorem find_best_match_most_specific_witness :
    find_matching_keywords "the mia chatbot dashboard is slow".toList
      ["dashboard".toList, "mia chatbot".toList] =
      some ("mia chatbot".toList, ["mia chatbot".toList, "dashboard".toList]) :=
  (find_best_match_most_specific "the mia chatbot dashboard is slow".toList
    ["dashboard".toList, "mia chatbot".toList] (by decide)).2

/-- C4: a vocabulary keyword whose normalization contains a space matches
iff that normalization is a substring of the normalized text; a single-word
keyword matches iff it occurs with word boundaries on both sides; with no
match at all the matcher returns nothing.  "category leads" does not match
"cat", "the cat sat" does. -/
theorem keyword_match_boundary_semantics (text kw : List Char)
    (keywords : List (List Char)) :
    (kw ∈ keywords → normalize_text kw ≠ [] →
      (((normalize_text kw).contains ' ' = true →
        (kw ∈ allMatches text keywords ↔
          isSubstring (normalize_text kw) (normalize_text text) = true)) ∧
       ((normalize_text kw).contains ' ' = false →
        (kw ∈ allMatches text keywords ↔
          reSearchWordBounded (normalize_text kw) (normalize_text text) = true)))) ∧
    (allMatches text keywords = [] → find_matching_keywords text keywords = none) ∧
    find_matching_keywords "category leads".toList ["cat".toList] = none ∧
    find_matching_keywords "the cat sat".toList ["cat".toList] =
      some ("cat".toList, ["cat".toList]) := by
  refine ⟨fun hmem hne => ⟨fun hsp => ?_, fun hsp => ?_⟩, fun hempty => ?_,
    by decide, by decide⟩
  · have hk : keywordHits (normalize_text text) kw =
        isSubstring (normalize_text kw) (normalize_text text) := by
      unfold keywordHits
      rw [if_neg hne, if_pos hsp]
    unfold allMatches
    rw [List.mem_filter, hk]
    simp [hmem]
  · have hk : keywordHits (normalize_text text) kw =
        reSearchWordBounded (normalize_text kw) (normalize_text text) := by
      unfold keywordHits
      rw [if_neg hne, if_neg (by rw [hsp]; simp)]
    unfold allMatches
    rw [List.mem_filter, hk]
    simp [hmem]
  · unfold find_matching_keywords
    rw [if_pos hempty]

theorem keyword_match_boundary_semantics_witness :
    ("cat".toList ∈ allMatches "the cat sat".toList ["cat".toList] ↔
      reSearchWordBounded (normalize_text "cat".toList)
        (normalize_text "the cat sat".toList) = true) :=
  ((keyword_match_boundary_semantics "the cat sat".toList "cat".toList
    ["cat".toList]).1 (by decide) (by decide)).2 (by decide)

/-! ## Claim theorems: scenario, grouping -/
set_option maxRecDepth 10000

set_option maxRecDepth 10000

/-- C6 (amended): the end-to-end scenario with vocabulary {"release notes"}
and one matching message on an empty store: exactly one insert, no update,
and the created article carries the code's singularization "release not"
(not the grammatical "release note"), the message text and a hash marker. -/
theorem end_to_end_release_notes_scenario :
    singularize_keyword "release notes".toList = "release not".toList ∧
    (runExtractionCore cEnv ["release notes".toList] [cMsgRelease] ⟨[], 0⟩).2.inserted = 1 ∧
    (runExtractionCore cEnv ["release notes".toList] [cMsgRelease] ⟨[], 0⟩).2.updated = 0 ∧
    (runExtractionCore cEnv ["release notes".toList] [cMsgRelease] ⟨[], 0⟩).1.items.length = 1 ∧
    (runExtractionCore cEnv ["release notes".toList] [cMsgRelease] ⟨[], 0⟩).1.items.headI.topics
      = ["release not".toList] ∧
    isSubstring cMsgRelease.text
      (runExtractionCore cEnv ["release notes".toList] [cMsgRelease] ⟨[], 0⟩).1.items.headI.raw_text
      = true ∧
    isSubstring ("_msg_hash: ".toList ++ hash_content cEnv cMsgRelease.text)
      (runExtractionCore cEnv ["release notes".toList] [cMsgRelease] ⟨[], 0⟩).1.items.headI.raw_text
      = true := by decide

/-- C6 (counterexample): in the very scenario of the claim the created
article's topics list is not `["release note"]` — the code's suffix-based
singularizer turns "release notes" into "release not". -/
theorem end_to_end_release_notes_claim_refuted :
    (runExtractionCore cEnv ["release notes".toList] [cMsgRelease] ⟨[], 0⟩).1.items.headI.topics
      ≠ ["release note".toList] := by decide

theorem wellKeyed_addToGroups {gs : List (List Char × List SlackMessage)}
    (hw : ∀ p ∈ gs, ∀ x ∈ p.2, threadKeyOf x = p.1) {k : List Char}
    {m : SlackMessage} (hk : threadKeyOf m = k) :
    ∀ p ∈ addToGroups gs k m, ∀ x ∈ p.2, threadKeyOf x = p.1 := by
  induction gs with
  | nil =>
    intro p hp x hx
    simp [addToGroups] at hp
    rw [hp] at hx ⊢
    simp at hx
    rw [hx, hk]
  | cons q rest ih =>
    obtain ⟨k', l⟩ := q
    intro p hp x hx
    rw [addToGroups] at hp
    by_cases hq : k' = k
    · rw [if_pos hq] at hp
      rcases List.mem_cons.mp hp with hpe | hp'
      · subst hpe
        rcases List.mem_append.mp hx with hx' | hx'
        · exact hw (k', l) (List.mem_cons_self _ _) x hx'
        · have hxm : x = m := by simpa using hx'
          rw [hxm, hk, hq]
      · exact hw p (List.mem_cons_of_mem _ hp') x hx
    · rw [if_neg hq] at hp
      rcases List.mem_cons.mp hp with hpe | hp'
      · subst hpe
        exact hw (k', l) (List.mem_cons_self _ _) x hx
      · exact ih (fun r hr => hw r (List.mem_cons_of_mem _ hr)) p hp' x hx

theorem wellKeyed_groupInsertionOrder (msgs : List SlackMessage) :
    ∀ p ∈ groupInsertionOrder msgs, ∀ x ∈ p.2, threadKeyOf x = p.1 := by
  unfold groupInsertionOrder
  suffices h : ∀ (ms : List SlackMessage) (gs : List (List Char × List SlackMessage)),
      (∀ p ∈ gs, ∀ x ∈ p.2, threadKeyOf x = p.1) →
      ∀ p ∈ ms.foldl (fun gs m => addToGroups gs (threadKeyOf m) m) gs,
        ∀ x ∈ p.2, threadKeyOf x = p.1 by
    exact h msgs [] (by simp)
  intro ms
  induction ms with
  | nil => intro gs hgs; simpa using hgs
  | cons m rest ih =>
    intro gs hgs
    exact ih _ (wellKeyed_addToGroups hgs rfl)

theorem wellKeyed_groups (msgs : List SlackMessage) :
    ∀ p ∈ group_messages_by_thread msgs, ∀ x ∈ p.2, threadKeyOf x = p.1 := by
  intro p hp x hx
  unfold group_messages_by_thread at hp
  obtain ⟨q, hq, rfl⟩ := List.mem_map.mp hp
  exact wellKeyed_groupInsertionOrder msgs q hq x ((List.mem_insertionSort tsLe).mp hx)

/-- C7: thread grouping keys a message by its thread-root timestamp when
that is present (and nonempty — Python's `or` treats the empty string as
absent), else by its own timestamp; each group is sorted ascending by
timestamp value; the function is deterministic; and the spec's concrete
example yields one group keyed "1" in order ts 1, 2, 3. -/
theorem thread_grouping_keys_and_order (msgs : List SlackMessage) :
    (∀ p ∈ group_messages_by_thread msgs, ∀ m ∈ p.2,
      (∀ r, m.original_thread_ts = some r → r ≠ [] → p.1 = r) ∧
      (m.original_thread_ts = none → p.1 = m.timestamp)) ∧
    (∀ p ∈ group_messages_by_thread msgs, List.Sorted tsLe p.2) ∧
    group_messages_by_thread msgs = group_messages_by_thread msgs ∧
    group_messages_by_thread [cThreadReply3, cThreadRoot, cThreadReply2] =
      [("1".toList, [cThreadRoot, cThreadReply2, cThreadReply3])] := by
  refine ⟨?_, ?_, rfl, by decide⟩
  · intro p hp m hm
    have hkey := wellKeyed_groups msgs p hp m hm
    constructor
    · intro r hr hrne
      rw [← hkey]
      unfold threadKeyOf pyOrStr
      rw [hr]
      simp [hrne]
    · intro hnone
      rw [← hkey]
      unfold threadKeyOf pyOrStr
      rw [hnone]
  · intro p hp
    unfold group_messages_by_thread at hp
    obtain ⟨q, _, rfl⟩ := List.mem_map.mp hp
    exact List.sorted_insertionSort tsLe q.2

theorem thread_grouping_keys_and_order_witness :
    List.Sorted tsLe [cThreadRoot, cThreadReply2, cThreadReply3] := by
  have h := (thread_grouping_keys_and_order
    [cThreadReply3, cThreadRoot, cThreadReply2]).2.1
    ("1".toList, [cThreadRoot, cThreadReply2, cThreadReply3])
  apply h
  rw [(thread_grouping_keys_and_order
    [cThreadReply3, cThreadRoot, cThreadReply2]).2.2.2]
  exact List.mem_singleton.mpr rfl

theorem flatten_addToGroups (gs : List (List Char × List SlackMessage))
    (k : List Char) (m : SlackMessage) :
    (((addToGroups gs k m).map Prod.snd).flatten).Perm
      ((gs.map Prod.snd).flatten ++ [m]) := by
  induction gs with
  | nil => simp [addToGroups]
  | cons q rest ih =>
    obtain ⟨k', l⟩ := q
    rw [addToGroups]
    by_cases hq : k' = k
    · rw [if_pos hq]
      simp only [List.map_cons, List.flatten_cons]
      calc (l ++ [m]) ++ (rest.map Prod.snd).flatten
          = l ++ ([m] ++ (rest.map Prod.snd).flatten) := by rw [List.append_assoc]
        _ ~ l ++ ((rest.map Prod.snd).flatten ++ [m]) :=
            List.Perm.append_left l (List.perm_append_comm)
        _ = (l ++ (rest.map Prod.snd).flatten) ++ [m] := by rw [List.append_assoc]
    · rw [if_neg hq]
      simp only [List.map_cons, List.flatten_cons]
      calc l ++ ((addToGroups rest k m).map Prod.snd).flatten
          ~ l ++ ((rest.map Prod.snd).flatten ++ [m]) := List.Perm.append_left l ih
        _ = (l ++ (rest.map Prod.snd).flatten) ++ [m] := by rw [List.append_assoc]

theorem flatten_foldGroups : ∀ (msgs : List SlackMessage)
    (gs : List (List Char × List SlackMessage)),
    (((msgs.foldl (fun gs m => addToGroups gs (threadKeyOf m) m) gs).map
      Prod.snd).flatten).Perm ((gs.map Prod.snd).flatten ++ msgs)
  | [], gs => by simp
  | m :: rest, gs => by
    rw [List.foldl_cons]
    calc ((((rest.foldl (fun gs m => addToGroups gs (threadKeyOf m) m)
            (addToGroups gs (threadKeyOf m) m)).map Prod.snd).flatten))
        ~ ((addToGroups gs (threadKeyOf m) m).map Prod.snd).flatten ++ rest :=
          flatten_foldGroups rest _
      _ ~ ((gs.map Prod.snd).flatten ++ [m]) ++ rest :=
          (flatten_addToGroups gs (threadKeyOf m) m).append_right rest
      _ = (gs.map Prod.snd).flatten ++ (m :: rest) := by
          rw [List.append_assoc]; rfl

theorem flatten_groups_perm (msgs : List SlackMessage) :
    (((group_messages_by_thread msgs).map Prod.snd).flatten).Perm msgs := by
  unfold group_messages_by_thread
  have hsort : ∀ (gi : List (List Char × List SlackMessage)),
      (((gi.map fun p => (p.1, List.insertionSort tsLe p.2)).map Prod.snd).flatten).Perm
        ((gi.map Prod.snd).flatten) := by
    intro gi
    induction gi with
    | nil => simp
    | cons q rest ih =>
      simp only [List.map_cons, List.flatten_cons]
      exact (List.perm_insertionSort tsLe q.2).append ih
  calc (((groupInsertionOrder msgs).map fun p =>
          (p.1, List.insertionSort tsLe p.2)).map Prod.snd).flatten
      ~ ((groupInsertionOrder msgs).map Prod.snd).flatten := hsort _
    _ ~ (([] : List (List Char × List SlackMessage)).map Prod.snd).flatten ++ msgs :=
        flatten_foldGroups msgs []
    _ = msgs := by simp

theorem keys_addToGroups (gs : List (List Char × List SlackMessage))
    (k : List Char) (m : SlackMessage) :
    (addToGroups gs k m).map Prod.fst =
      if k ∈ gs.map Prod.fst then gs.map Prod.fst else gs.map Prod.fst ++ [k] := by
  induction gs with
  | nil => simp [addToGroups]
  | cons q rest ih =>
    obtain ⟨k', l⟩ := q
    rw [addToGroups]
    by_cases hq : k' = k
    · rw [if_pos hq]
      simp [hq]
    · rw [if_neg hq]
      simp only [List.map_cons, ih, List.mem_cons]
      by_cases hk : k ∈ rest.map Prod.fst
      · rw [if_pos hk, if_pos (Or.inr hk)]
      · rw [if_neg hk, if_neg (by rintro (h | h); exact hq h.symm; exact hk h)]
        rfl

theorem keysNodup_foldGroups : ∀ (msgs : List SlackMessage)
    (gs : List (List Char × List SlackMessage)),
    (gs.map Prod.fst).Nodup →
    ((msgs.foldl (fun gs m => addToGroups gs (threadKeyOf m) m) gs).map Prod.fst).Nodup
  | [], gs, h => h
  | m :: rest, gs, h => by
    rw [List.foldl_cons]
    apply keysNodup_foldGroups rest
    rw [keys_addToGroups]
    by_cases hk : threadKeyOf m ∈ gs.map Prod.fst
    · rw [if_pos hk]; exact h
    · rw [if_neg hk]
      simp [List.nodup_append, h, hk]

theorem keys_groups_nodup (msgs : List SlackMessage) :
    ((group_messages_by_thread msgs).map Prod.fst).Nodup := by
  unfold group_messages_by_thread
  have : ((groupInsertionOrder msgs).map fun p =>
      (p.1, List.insertionSort tsLe p.2)).map Prod.fst =
      (groupInsertionOrder msgs).map Prod.fst := by
    rw [List.map_map]; rfl
  rw [this]
  exact keysNodup_foldGroups msgs [] (by simp)

/-- C10: thread grouping neither loses nor duplicates messages — the
concatenation of all groups is a permutation of the input (multiset
equality), group keys are pairwise distinct, and every input message lies
in exactly one group. -/
theorem thread_grouping_partition (msgs : List SlackMessage) :
    (((group_messages_by_thread msgs).map Prod.snd).flatten).Perm msgs ∧
    ((group_messages_by_thread msgs).map Prod.fst).Nodup ∧
    ∀ m ∈ msgs, ∃! p, p ∈ group_messages_by_thread msgs ∧ m ∈ p.2 := by
  refine ⟨flatten_groups_perm msgs, keys_groups_nodup msgs, ?_⟩
  intro m hm
  have hmem : m ∈ ((group_messages_by_thread msgs).map Prod.snd).flatten :=
    (flatten_groups_perm msgs).mem_iff.mpr hm
  obtain ⟨l, hl, hml⟩ := List.mem_flatten.mp hmem
  obtain ⟨p, hp, rfl⟩ := List.mem_map.mp hl
  refine ⟨p, ⟨hp, hml⟩, ?_⟩
  rintro q ⟨hq, hmq⟩
  have h₁ : threadKeyOf m = p.1 := wellKeyed_groups msgs p hp m hml
  have h₂ : threadKeyOf m = q.1 := wellKeyed_groups msgs q hq m hmq
  have hfst : q.1 = p.1 := by rw [← h₁, ← h₂]
  exact List.inj_on_of_nodup_map (keys_groups_nodup msgs) hq hp hfst

theorem thread_grouping_partition_witness :
    ∃! p, p ∈ group_messages_by_thread [cThreadReply3, cThreadRoot, cThreadReply2] ∧
      cThreadRoot ∈ p.2 :=
  (thread_grouping_partition [cThreadReply3, cThreadRoot, cThreadReply2]).2.2
    cThreadRoot (by decide)


/-! ## Claim theorems: dedup append (C1) -/


theorem occursAt_iff {k t : List Char} {i : Nat} :
    occursAt k t i = true ↔ i + k.length ≤ t.length ∧ (t.drop i).take k.length = k := by
  simp [occursAt]

theorem isSubstring_iff {k t : List Char} : isSubstring k t = true ↔ k <:+: t := by
  constructor
  · intro h
    obtain ⟨i, _, hocc⟩ := List.any_eq_true.mp h
    obtain ⟨_, htake⟩ := occursAt_iff.mp hocc
    have h₁ : k <+: t.drop i := htake ▸ List.take_prefix _ _
    exact h₁.isInfix.trans (List.drop_suffix i t).isInfix
  · rintro ⟨s, u, rfl⟩
    apply List.any_eq_true.mpr
    refine ⟨s.length, List.mem_range.mpr ?_, occursAt_iff.mpr ⟨?_, ?_⟩⟩
    · simp
      omega
    · simp
    · rw [List.append_assoc, List.drop_left, List.take_left]

theorem suffix_append_left {s t pre : List Char} (h : s <:+ t) : s <:+ pre ++ t := by
  obtain ⟨q, rfl⟩ := h
  exact ⟨pre ++ q, by rw [List.append_assoc]⟩

theorem joinSep_last_suffix (sep : List Char) :
    ∀ (ps : List (List Char)) (x : List Char), x <:+ joinSep sep (ps ++ [x])
  | [], x => by simp [joinSep]
  | w :: ws, x => by
    have hshape : ∃ a t, ws ++ [x] = a :: t := by
      cases ws with
      | nil => exact ⟨x, [], rfl⟩
      | cons a t => exact ⟨a, t ++ [x], rfl⟩
    obtain ⟨a, t, hat⟩ := hshape
    have : joinSep sep ((w :: ws) ++ [x]) = w ++ sep ++ joinSep sep (ws ++ [x]) := by
      rw [List.cons_append, hat]
      rfl
    rw [this]
    exact suffix_append_left (joinSep_last_suffix sep ws x)

theorem marker_suffix_entry (env : Env) (msg : SlackMessage) (h : List Char) :
    ("_msg_hash: ".toList ++ h) <:+ format_message_for_storage env msg h := by
  unfold format_message_for_storage
  exact joinSep_last_suffix _ _ _

/-- C1: `append_to_existing_article` is a dedup-guarded append: when the
content hash already occurs in `raw_text` it reports a duplicate and leaves
the store untouched; otherwise it appends exactly one formatted entry
ending in the hash marker, and re-appending any formatting-equivalent
message to the updated article is a no-op — a message is represented at
most once. -/
theorem append_dedup_idempotent (env : Env) (store : Store) (article : Article)
    (msg : SlackMessage) :
    (message_exists_in_article (hash_content env msg.text) article.raw_text = true →
      append_to_existing_article env store article msg (hash_content env msg.text) =
        (store, false, "duplicate".toList)) ∧
    (message_exists_in_article (hash_content env msg.text) article.raw_text = false →
      append_to_existing_article env store article msg (hash_content env msg.text) =
        ({ store with items := store.items.map fun a =>
            if a.id = article.id then
              { a with raw_text := article.raw_text ++ "\n\n".toList ++
                  format_message_for_storage env msg (hash_content env msg.text) }
            else a },
          true, "updated".toList) ∧
      ("_msg_hash: ".toList ++ hash_content env msg.text) <:+
        format_message_for_storage env msg (hash_content env msg.text) ∧
      (∀ (msg' : SlackMessage) (store' : Store),
        normalize_text msg'.text = normalize_text msg.text →
        append_to_existing_article env store'
          { article with raw_text := article.raw_text ++ "\n\n".toList ++
              format_message_for_storage env msg (hash_content env msg.text) }
          msg' (hash_content env msg'.text) =
          (store', false, "duplicate".toList))) := by
  constructor
  · intro hdup
    unfold append_to_existing_article
    rw [if_pos hdup]
  · intro hnew
    refine ⟨?_, marker_suffix_entry env msg _, ?_⟩
    · unfold append_to_existing_article
      rw [if_neg (by rw [hnew]; simp)]
    · intro msg' store' hnorm
      have hhash : hash_content env msg'.text = hash_content env msg.text :=
        congrArg env.sha256hex hnorm
      have hsub : message_exists_in_article (hash_content env msg'.text)
          (article.raw_text ++ "\n\n".toList ++
            format_message_for_storage env msg (hash_content env msg.text)) = true := by
        unfold message_exists_in_article
        rw [hhash]
        apply isSubstring_iff.mpr
        apply List.IsSuffix.isInfix
        apply suffix_append_left
        exact ((List.suffix_append "_msg_hash: ".toList
          (hash_content env msg.text)).trans (marker_suffix_entry env msg _))
      unfold append_to_existing_article
      rw [if_pos hsub]

theorem append_dedup_idempotent_witness :
    append_to_existing_article cEnv ⟨[cArticleCat], 8⟩ cArticleCat cMsgCatA
      (hash_content cEnv cMsgCatA.text) = (⟨[cArticleCat], 8⟩, false, "duplicate".toList) :=
  (append_dedup_idempotent cEnv ⟨[cArticleCat], 8⟩ cArticleCat cMsgCatA).1 (by decide)


/-! ## Claim theorems: summarizer degradation (C8) -/


theorem pySplitAux_ne_nil : ∀ (l acc : List Char), acc ≠ [] → pySplitAux l acc ≠ []
  | [], acc, h => by simp [pySplitAux, h]
  | c :: cs, acc, h => by
    rw [pySplitAux]
    by_cases hc : isPySpace c
    · rw [if_pos hc, if_neg h]
      simp
    · rw [if_neg hc]
      exact pySplitAux_ne_nil cs (c :: acc) (by simp)

theorem pySplit_stripped_ne_nil {t : List Char} (h : pyStrip t ≠ []) :
    pySplit (pyStrip t) ≠ [] := by
  cases hc : pyStrip t with
  | nil => exact absurd hc h
  | cons c rest =>
    have hns : isPySpace c = false :=
      pyStrip_head_nonspace (by rw [hc]; rfl)
    rw [pySplit, pySplitAux, if_neg (by rw [hns]; simp)]
    exact pySplitAux_ne_nil rest [c] (by simp)

theorem validate_keyword_shape {kw topic : List Char}
    (hv : validate_keyword kw = some topic) :
    (∃ t, topic = pyStrip t) ∧ topic ≠ [] := by
  unfold validate_keyword at hv
  by_cases h1 : pyStrip kw = []
  · rw [if_pos h1] at hv
    exact absurd hv (by simp)
  · rw [if_neg h1] at hv
    simp only at hv
    by_cases h2 : pyStrip (if pyStrip (singularize_keyword (pyStrip kw)) = []
        then pyStrip (pyStrip kw) else singularize_keyword (pyStrip kw)) = []
    · rw [if_pos h2] at hv
      exact absurd hv (by simp)
    · rw [if_neg h2] at hv
      have := Option.some.inj hv
      exact ⟨⟨_, this.symm⟩, by rw [← this]; exact h2⟩

theorem validate_keyword_words_ne_nil {kw topic : List Char}
    (hv : validate_keyword kw = some topic) : pySplit topic ≠ [] := by
  obtain ⟨⟨t, rfl⟩, hne⟩ := validate_keyword_shape hv
  exact pySplit_stripped_ne_nil hne

theorem process_create_shape (env : Env) (store : Store) (keyword topic : List Char)
    (msg : SlackMessage) (tm : List SlackMessage)
    (hv : validate_keyword keyword = some topic)
    (hf : find_existing_article store keyword = none) :
    ∃ summary decisions keyPoints actionItems,
      process_matched_message env store keyword msg tm =
        ({ items := store.items ++
            [{ id := store.nextId, summary := summary, topics := [topic],
               decisions := decisions, key_points := keyPoints,
               action_items := actionItems, faqs := [],
               source := "slack".toList, date := env.dateOfTs msg.timestamp,
               project := msg.channel,
               sender_name := pyOrStr msg.sender_name "Unknown".toList,
               raw_text := format_message_for_storage env msg (hash_content env msg.text) }],
           nextId := store.nextId + 1 }, true, "inserted".toList) ∧
      ((env.openaiApiKey = none ∨ summarize_thread_with_openai env tm topic = none) →
        summary = (if get_preview_text msg.text 3 = [] then
          "Slack messages about ".toList ++ topic else get_preview_text msg.text 3) ∧
        decisions = [] ∧ keyPoints = [] ∧ actionItems = []) := by
  have hwords := validate_keyword_words_ne_nil hv
  unfold process_matched_message
  rw [hv, hf]
  simp only
  by_cases hcond : (!tm.isEmpty && env.openaiApiKey.isSome) = true
  · rw [if_pos hcond]
    cases hsum : summarize_thread_with_openai env tm topic with
    | some sd =>
      refine ⟨format_summary_for_storage sd, jGetList sd "decisions".toList,
        jGetList sd "key_points".toList, jGetList sd "action_items".toList, ?_, ?_⟩
      · show create_new_article env store topic msg (hash_content env msg.text)
          (format_summary_for_storage sd) (jGetList sd "decisions".toList)
          (jGetList sd "key_points".toList) (jGetList sd "action_items".toList) = _
        unfold create_new_article
        rw [if_neg hwords]
      · rintro (hnone | hnone)
        · rw [Bool.and_eq_true] at hcond
          rw [hnone] at hcond
          exact absurd hcond.2 (by simp)
        · exact absurd hnone (Option.some_ne_none sd)
    | none =>
      refine ⟨if get_preview_text msg.text 3 = [] then
          "Slack messages about ".toList ++ topic else get_preview_text msg.text 3,
        [], [], [], ?_, fun _ => ⟨rfl, rfl, rfl, rfl⟩⟩
      show create_new_article env store topic msg (hash_content env msg.text)
        (if get_preview_text msg.text 3 = [] then
          "Slack messages about ".toList ++ topic else get_preview_text msg.text 3)
        [] [] [] = _
      unfold create_new_article
      rw [if_neg hwords]
  · rw [if_neg hcond]
    refine ⟨if get_preview_text msg.text 3 = [] then
        "Slack messages about ".toList ++ topic else get_preview_text msg.text 3,
      [], [], [], ?_, fun _ => ⟨rfl, rfl, rfl, rfl⟩⟩
    unfold create_new_article
    rw [if_neg hwords]

/-- C8: the summarizer adapter returns nothing when the credential is
absent, the external call fails (timeout, transport error, non-200, empty
completion), the response is unparsable JSON, or a required key is missing;
and in every such case article creation still succeeds, with the plain-text
preview of the message as summary.  All embedded operations are total, so
no exception propagates and consolidation is never blocked. -/
theorem summarizer_failure_graceful (env : Env) (msgs tm : List SlackMessage)
    (kw keyword topic : List Char) (store : Store) (msg : SlackMessage) :
    (env.openaiApiKey = none → summarize_thread_with_openai env msgs kw = none) ∧
    (env.openaiCall (buildPrompt kw (buildConversationText env msgs kw)) = none →
      summarize_thread_with_openai env msgs kw = none) ∧
    (∀ content,
      env.openaiCall (buildPrompt kw (buildConversationText env msgs kw)) = some content →
      parse_json_response env content = none →
      summarize_thread_with_openai env msgs kw = none) ∧
    (∀ content sd,
      env.openaiCall (buildPrompt kw (buildConversationText env msgs kw)) = some content →
      parse_json_response env content = some sd →
      (requiredKeys.all fun k => (jGet sd k).isSome) = false →
      summarize_thread_with_openai env msgs kw = none) ∧
    (validate_keyword keyword = some topic →
      find_existing_article store keyword = none →
      (env.openaiApiKey = none ∨ summarize_thread_with_openai env tm topic = none) →
      process_matched_message env store keyword msg tm =
        ({ items := store.items ++
            [{ id := store.nextId,
               summary := (if get_preview_text msg.text 3 = [] then
                 "Slack messages about ".toList ++ topic else get_preview_text msg.text 3),
               topics := [topic], decisions := [], key_points := [],
               action_items := [], faqs := [],
               source := "slack".toList, date := env.dateOfTs msg.timestamp,
               project := msg.channel,
               sender_name := pyOrStr msg.sender_name "Unknown".toList,
               raw_text := format_message_for_storage env msg (hash_content env msg.text) }],
           nextId := store.nextId + 1 }, true, "inserted".toList)) := by
  refine ⟨?_, ?_, ?_, ?_, ?_⟩
  · intro hkey
    unfold summarize_thread_with_openai
    rw [hkey]
  · intro hcall
    unfold summarize_thread_with_openai
    cases hkey : env.openaiApiKey with
    | none => rfl
    | some k => rw [hcall]
  · intro content hcall hparse
    unfold summarize_thread_with_openai
    cases hkey : env.openaiApiKey with
    | none => rfl
    | some k =>
      rw [hcall]
      simp only
      by_cases hempty : content = []
      · rw [if_pos hempty]
      · rw [if_neg hempty, hparse]
  · intro content sd hcall hparse hkeys
    unfold summarize_thread_with_openai
    cases hkey : env.openaiApiKey with
    | none => rfl
    | some k =>
      rw [hcall]
      simp only
      by_cases hempty : content = []
      · rw [if_pos hempty]
      · rw [if_neg hempty, hparse]
        simp only
        rw [hkeys]
        simp
  · intro hv hf hdeg
    obtain ⟨s, d, kp, ai, heq, hcond⟩ := process_create_shape env store keyword topic msg tm hv hf
    obtain ⟨hs, hd, hkp, hai⟩ := hcond hdeg
    rw [heq, hs, hd, hkp, hai]

theorem summarizer_failure_graceful_witness :
    summarize_thread_with_openai cEnv [cMsgCatA] "cat".toList = none ∧
    (process_matched_message cEnv ⟨[], 0⟩ "cat".toList cMsgCatA [cMsgCatA]).2 =
      (true, "inserted".toList) := by
  have h := summarizer_failure_graceful cEnv [cMsgCatA] [cMsgCatA] "cat".toList
    "cat".toList "cat".toList ⟨[], 0⟩ cMsgCatA
  refine ⟨h.1 rfl, ?_⟩
  rw [h.2.2.2.2 (by decide) (by decide) (Or.inl rfl)]


/-! ## Claim theorems: one article per keyword (C2) -/


theorem find_existing_after_insert (store : Store) (keyword : List Char)
    (a : Article) (n : Nat)
    (hf : find_existing_article store keyword = none)
    (hsrc : a.source = "slack".toList)
    (htop : singularize_keyword keyword ∈ a.topics) :
    find_existing_article ⟨store.items ++ [a], n⟩ keyword = some a := by
  unfold find_existing_article at hf ⊢
  simp only at hf ⊢
  rw [List.filter_append, List.find?_append, hf]
  simp [hsrc, htop]

theorem process_append_shape (env : Env) (store : Store) (keyword topic : List Char)
    (msg : SlackMessage) (tm : List SlackMessage) (a : Article)
    (hv : validate_keyword keyword = some topic)
    (hf : find_existing_article store keyword = some a)
    (hnd : message_exists_in_article (hash_content env msg.text) a.raw_text = false) :
    ∃ g : Article → Article,
      (∀ x, (g x).raw_text = x.raw_text ∧ (g x).topics = x.topics ∧
        (g x).source = x.source ∧ (g x).id = x.id) ∧
      process_matched_message env store keyword msg tm =
        ({ store with items := (store.items.map fun x =>
            if x.id = a.id then
              { x with raw_text := a.raw_text ++ "\n\n".toList ++
                  format_message_for_storage env msg (hash_content env msg.text) }
            else x).map g },
          true, "updated".toList) := by
  have happ : append_to_existing_article env store a msg (hash_content env msg.text) =
      ({ store with items := store.items.map fun x =>
          if x.id = a.id then
            { x with raw_text := a.raw_text ++ "\n\n".toList ++
                format_message_for_storage env msg (hash_content env msg.text) }
          else x },
        true, "updated".toList) := by
    unfold append_to_existing_article
    rw [if_neg (by rw [hnd]; simp)]
  unfold process_matched_message
  rw [hv, hf]
  simp only [happ]
  by_cases hc : (!tm.isEmpty && env.openaiApiKey.isSome) = true
  · rw [if_pos (by simp only [Bool.true_and]; exact hc)]
    cases hsum : summarize_thread_with_openai env tm keyword with
    | none =>
      refine ⟨id, fun x => ⟨rfl, rfl, rfl, rfl⟩, ?_⟩
      unfold update_article_summary_with_ai
      rw [hsum]
      simp only [List.map_id]
    | some sd =>
      refine ⟨fun x => if x.id = a.id then
          { x with summary := format_summary_for_storage sd,
                   decisions := if jGetList sd "decisions".toList ≠ [] then
                     jGetList sd "decisions".toList else x.decisions,
                   key_points := if jGetList sd "key_points".toList ≠ [] then
                     jGetList sd "key_points".toList else x.key_points,
                   action_items := if jGetList sd "action_items".toList ≠ [] then
                     jGetList sd "action_items".toList else x.action_items }
        else x, ?_, ?_⟩
      · intro x
        by_cases hx : x.id = a.id <;> simp [hx]
      · unfold update_article_summary_with_ai
        rw [hsum]
  · rw [if_neg (by simp only [Bool.true_and]; exact hc)]
    exact ⟨id, fun x => ⟨rfl, rfl, rfl, rfl⟩, by simp only [List.map_id]⟩

theorem filter_map_article_congr (p : Article → Bool) (g : Article → Article)
    (hg : ∀ x, p (g x) = p x) (l : List Article) :
    (l.map g).filter p = (l.filter p).map g := by
  induction l with
  | nil => rfl
  | cons x rest ih =>
    simp only [List.map_cons, List.filter_cons, hg]
    cases hx : p x with
    | true => simp [ih]
    | false => simp [ih]

theorem store_filter_nil {store : Store} {keyword : List Char}
    (hf : find_existing_article store keyword = none) :
    store.items.filter (fun x =>
      decide (x.source = "slack".toList ∧ singularize_keyword keyword ∈ x.topics)) = [] := by
  unfold find_existing_article at hf
  rw [List.find?_eq_none] at hf
  rw [List.filter_eq_nil_iff]
  intro x hx hcon
  rw [decide_eq_true_eq] at hcon
  exact hf x (List.mem_filter.mpr ⟨hx, by rw [decide_eq_true_eq]; exact hcon.1⟩)
    (by rw [decide_eq_true_eq]; exact hcon.2)

/-- C2 (amended): starting from a store with no article for the keyword,
processing two matching messages in timestamp order — the second with a
content hash not already occurring in the first message's stored entry —
inserts once, then looks the article up and appends: afterwards the store
holds exactly one article for the keyword and its `raw_text` is the first
entry followed by the second. -/
theorem one_article_per_keyword (env : Env) (store : Store)
    (keyword topic : List Char) (msg1 msg2 : SlackMessage)
    (tm1 tm2 : List SlackMessage)
    (hv : validate_keyword keyword = some topic)
    (hsing : singularize_keyword keyword = topic)
    (hm1 : keywordHits (normalize_text msg1.text) keyword = true)
    (hm2 : keywordHits (normalize_text msg2.text) keyword = true)
    (hf : find_existing_article store keyword = none)
    (hts : tsVal msg1.timestamp ≤ tsVal msg2.timestamp)
    (hnd : message_exists_in_article (hash_content env msg2.text)
      (format_message_for_storage env msg1 (hash_content env msg1.text)) = false) :
    (process_matched_message env store keyword msg1 tm1).2 = (true, "inserted".toList) ∧
    (process_matched_message env
      (process_matched_message env store keyword msg1 tm1).1 keyword msg2 tm2).2 =
      (true, "updated".toList) ∧
    ∃ a : Article,
      ((process_matched_message env
          (process_matched_message env store keyword msg1 tm1).1 keyword msg2 tm2).1.items.filter
        (fun x => decide (x.source = "slack".toList ∧
          singularize_keyword keyword ∈ x.topics))) = [a] ∧
      a.raw_text = format_message_for_storage env msg1 (hash_content env msg1.text) ++
        "\n\n".toList ++ format_message_for_storage env msg2 (hash_content env msg2.text) ∧
      a.topics = [topic] := by
  obtain ⟨s, d, kp, ai, heq1, _⟩ := process_create_shape env store keyword topic msg1 tm1 hv hf
  set a1 : Article :=
    { id := store.nextId, summary := s, topics := [topic],
      decisions := d, key_points := kp, action_items := ai, faqs := [],
      source := "slack".toList, date := env.dateOfTs msg1.timestamp,
      project := msg1.channel,
      sender_name := pyOrStr msg1.sender_name "Unknown".toList,
      raw_text := format_message_for_storage env msg1 (hash_content env msg1.text) } with ha1
  have hfind2 : find_existing_article (process_matched_message env store keyword msg1 tm1).1
      keyword = some a1 := by
    rw [heq1]
    exact find_existing_after_insert store keyword a1 (store.nextId + 1) hf rfl
      (by rw [hsing]; exact List.mem_singleton.mpr rfl)
  have hnd1 : message_exists_in_article (hash_content env msg2.text) a1.raw_text = false := hnd
  obtain ⟨g, hg, heq2⟩ := process_append_shape env
    (process_matched_message env store keyword msg1 tm1).1 keyword topic msg2 tm2 a1
    hv hfind2 hnd1
  refine ⟨by rw [heq1], by rw [heq2], ?_⟩
  set p : Article → Bool := fun x => decide (x.source = "slack".toList ∧
    singularize_keyword keyword ∈ x.topics) with hp
  set f : Article → Article := fun x =>
    if x.id = a1.id then
      { x with raw_text := a1.raw_text ++ "\n\n".toList ++
          format_message_for_storage env msg2 (hash_content env msg2.text) }
    else x with hfdef
  have hgp : ∀ x, p (g x) = p x := by
    intro x
    obtain ⟨_, ht, hsrc, _⟩ := hg x
    rw [hp]
    simp only [ht, hsrc]
  have hfp : ∀ x, p (f x) = p x := by
    intro x
    rw [hfdef, hp]
    by_cases hx : x.id = a1.id <;> simp [hx]
  refine ⟨g (f a1), ?_, ?_, ?_⟩
  · rw [heq2]
    simp only
    rw [filter_map_article_congr p g hgp, filter_map_article_congr p f hfp]
    rw [heq1]
    simp only
    rw [List.filter_append, store_filter_nil hf]
    have hpa1 : p a1 = true := by
      rw [hp]
      apply decide_eq_true
      exact ⟨rfl, by rw [hsing]; exact List.mem_singleton.mpr rfl⟩
    simp [hpa1]
  · obtain ⟨hraw, _, _, _⟩ := hg (f a1)
    rw [hraw, hfdef]
    simp
  · obtain ⟨_, ht, _, _⟩ := hg (f a1)
    rw [ht, hfdef]
    simp

theorem one_article_per_keyword_witness :
    ∃ a : Article,
      ((process_matched_message cEnv
          (process_matched_message cEnv ⟨[], 0⟩ "cat".toList cMsgCatA [cMsgCatA]).1
          "cat".toList cMsgCatC [cMsgCatC]).1.items.filter
        (fun x => decide (x.source = "slack".toList ∧
          singularize_keyword "cat".toList ∈ x.topics))) = [a] ∧
      a.raw_text = format_message_for_storage cEnv cMsgCatA (hash_content cEnv cMsgCatA.text) ++
        "\n\n".toList ++
        format_message_for_storage cEnv cMsgCatC (hash_content cEnv cMsgCatC.text) ∧
      a.topics = ["cat".toList] :=
  (one_article_per_keyword cEnv ⟨[], 0⟩ "cat".toList "cat".toList cMsgCatA cMsgCatC
    [cMsgCatA] [cMsgCatC] (by decide) (by decide) (by decide) (by decide) (by decide)
    (by decide) (by decide)).2.2

/-- C2 (counterexample): two distinct messages that both match "cat",
processed in sequence in timestamp order over a store with no article for
the keyword — but with formatting-equivalent text, hence equal content
hashes.  Exactly one article results, yet its `raw_text` does not contain
the second message's formatted entry: the dedup check absorbed it, so the
claim's "raw_text contains both message entries" fails for this pair of
distinct messages. -/
theorem one_article_per_keyword_claim_refuted :
    cMsgCatA ≠ cMsgCatB ∧
    keywordHits (normalize_text cMsgCatA.text) "cat".toList = true ∧
    keywordHits (normalize_text cMsgCatB.text) "cat".toList = true ∧
    find_existing_article ⟨[], 0⟩ "cat".toList = none ∧
    tsVal cMsgCatA.timestamp ≤ tsVal cMsgCatB.timestamp ∧
    ((process_matched_message cEnvTs
        (process_matched_message cEnvTs ⟨[], 0⟩ "cat".toList cMsgCatA [cMsgCatA]).1
        "cat".toList cMsgCatB [cMsgCatB]).1.items.filter
      (fun x => decide (x.source = "slack".toList ∧
        singularize_keyword "cat".toList ∈ x.topics))).length = 1 ∧
    isSubstring
      (format_message_for_storage cEnvTs cMsgCatB (hash_content cEnvTs cMsgCatB.text))
      ((process_matched_message cEnvTs
        (process_matched_message cEnvTs ⟨[], 0⟩ "cat".toList cMsgCatA [cMsgCatA]).1
        "cat".toList cMsgCatB [cMsgCatB]).1.items.headI.raw_text) = false := by decide


end KB
